import Mathlib

/-! Verification development for the jira-tui terminal dashboard.
    The definitions below are a shallow embedding of the Rust sources
    src/ui/input.rs, src/app.rs and src/ui/issue_list.rs. Machine integers
    (u16, usize, isize) are modelled as Nat or Int with an explicit
    reduction mod 2^w at exactly the operations where the Rust value can
    leave the machine range (release-profile wrapping semantics; debug
    builds would panic at those same operations). Rust operations that can
    panic unconditionally, such as String.truncate off a char boundary,
    are modelled as Option-returning functions, with none for the panic. -/

/- Key events: crossterm KeyCode and KeyModifiers restricted to the codes this
   program inspects; every other key code is collapsed into otherKey, which all
   the dispatchers treat via their catch-all arm exactly as crossterm's other
   codes are treated. -/

inductive KeyCode where
  | char : Char → KeyCode
  | enter
  | esc
  | backspace
  | up
  | down
  | otherKey
deriving DecidableEq

/- KeyModifiers is a bitflag set in crossterm; the program only ever compares
   it against the constants NONE and CONTROL and tests the CONTROL bit. -/
structure Modifiers where
  ctrl : Bool
  shift : Bool
  alt : Bool
deriving DecidableEq

def Modifiers.NONE : Modifiers := ⟨false, false, false⟩

def Modifiers.CONTROL : Modifiers := ⟨true, false, false⟩

structure KeyEvent where
  code : KeyCode
  modifiers : Modifiers
deriving DecidableEq

/- src/ui/input.rs: InputMode. -/
inductive InputMode where
  | normal
  | insert
deriving DecidableEq

/- src/ui/input.rs: NormalModeAction. Jump and Scroll carry an isize. -/
inductive NormalModeAction where
  | quit
  | jump (d : Int)
  | scroll (d : Int)
  | enterInput
  | gotoTop
  | gotoBottom
  | toggleSidebar
  | none
deriving DecidableEq

/- src/ui/input.rs: EditingModeAction. -/
inductive EditingModeAction where
  | submit
  | cancel
  | edited
  | none
deriving DecidableEq

/- usize arithmetic: Nat reduced mod 2^64 (wrapping on overflow). -/
def wrapUsize (n : Nat) : Nat := n % (2 ^ 64)

/- The cast "count as isize": a usize value (< 2^64) reinterpreted as a signed
   64-bit integer (two's complement). -/
def usizeToIsize (n : Nat) : Int := if n < 2 ^ 63 then (n : Int) else (n : Int) - 2 ^ 64

/- isize negation with i64 wrapping (negating i64::MIN yields i64::MIN). -/
def isizeNeg (x : Int) : Int := if x = -(2 ^ 63) then -(2 ^ 63) else -x

/- Two's complement reduction of an i64 arithmetic result into the range
   [-2^63, 2^63): release-profile wrapping addition and subtraction; debug
   builds panic at the same operations. -/
def wrapIsize (x : Int) : Int := (x + 2 ^ 63) % 2 ^ 64 - 2 ^ 63

/- c.to_digit(10).unwrap() for an ASCII digit c. -/
def digitToNat (c : Char) : Nat := c.toNat - '0'.toNat

/- src/ui/input.rs, handle_normal_mode_key, resolution part: the match on
   (pending_count.take().unwrap_or(1), key.modifiers, key.code). The Rust
   tuple match tests key.modifiers for equality with M::NONE or M::CONTROL
   arm by arm; grouping those tests as two outer branches is equivalent. -/
def resolveNormal (count : Nat) (k : KeyEvent) : NormalModeAction :=
  if k.modifiers = Modifiers.NONE then
    match k.code with
    | .char 'j' | .down => .jump (usizeToIsize count)
    | .char 'k' | .up => .jump (isizeNeg (usizeToIsize count))
    | .char 'd' => .jump 20
    | .char 'u' => .jump (-20)
    | .char 'i' => .enterInput
    | .char 'g' => .gotoTop
    | .char 'G' => .gotoBottom
    | .char 's' => .toggleSidebar
    | .char 'q' => .quit
    | _ => .none
  else if k.modifiers = Modifiers.CONTROL then
    match k.code with
    | .char 'e' => .scroll (usizeToIsize count)
    | .char 'y' => .scroll (isizeNeg (usizeToIsize count))
    | _ => .none
  else .none

/- The digit-accumulation guard of handle_normal_mode_key:
   c.is_ascii_digit() && !(c == '0' && pending_count.is_none()). -/
def swallowsDigit (k : KeyEvent) (pending : Option Nat) : Bool :=
  match k.code with
  | .char c => c.isDigit && !(c = '0' && pending.isNone)
  | _ => false

/- src/ui/input.rs, handle_normal_mode_key. The &mut Option<usize> pending
   count is threaded explicitly: the function returns the action together
   with the new contents of the pending-count cell. The accumulation
   pending.unwrap_or(0) * 10 + digit is usize arithmetic, hence mod 2^64. -/
def handleNormalModeKey (k : KeyEvent) (pending : Option Nat) :
    NormalModeAction × Option Nat :=
  match k.code with
  | .char c =>
    if c.isDigit && !(c = '0' && pending.isNone) then
      (.none, some (wrapUsize (pending.getD 0 * 10 + digitToNat c)))
    else
      (resolveNormal (pending.getD 1) k, Option.none)
  | _ => (resolveNormal (pending.getD 1) k, Option.none)

/- Runs a list of key events through handle_normal_mode_key, threading the
   pending-count cell, and collects the returned actions. -/
def runKeys : List KeyEvent → Option Nat → List NormalModeAction × Option Nat
  | [], p => ([], p)
  | k :: ks, p =>
    ((handleNormalModeKey k p).1 :: (runKeys ks (handleNormalModeKey k p).2).1,
     (runKeys ks (handleNormalModeKey k p).2).2)

def digitKey (c : Char) : KeyEvent := ⟨.char c, Modifiers.NONE⟩

def jKey : KeyEvent := ⟨.char 'j', Modifiers.NONE⟩

/- Decimal value of a digit-key sequence as accumulated by the dispatcher
   (usize wrapping semantics), and its unbounded mathematical value. -/
def wrapDigits (ds : List Char) : Nat :=
  ds.foldl (fun a c => wrapUsize (a * 10 + digitToNat c)) 0

def decDigits (ds : List Char) : Nat :=
  ds.foldl (fun a c => a * 10 + digitToNat c) 0

/- Rust char::is_whitespace: the Unicode White_Space property. -/
def rustIsWhitespace (c : Char) : Bool :=
  (0x09 ≤ c.toNat && c.toNat ≤ 0x0D) || c.toNat = 0x20 || c.toNat = 0x85 ||
  c.toNat = 0xA0 || c.toNat = 0x1680 ||
  (0x2000 ≤ c.toNat && c.toNat ≤ 0x200A) ||
  c.toNat = 0x2028 || c.toNat = 0x2029 || c.toNat = 0x202F ||
  c.toNat = 0x205F || c.toNat = 0x3000

/- Number of bytes of the UTF-8 encoding of a char. -/
def utf8Len (c : Char) : Nat :=
  if c.toNat < 0x80 then 1
  else if c.toNat < 0x800 then 2
  else if c.toNat < 0x10000 then 3
  else 4

/- Byte length of a string, String::len in Rust. -/
def byteLen (l : List Char) : Nat := (l.map utf8Len).sum

/- str::trim_end_matches(char::is_whitespace): drop the maximal whitespace
   suffix. -/
def dropTrailingWs (l : List Char) : List Char :=
  (l.reverse.dropWhile rustIsWhitespace).reverse

/- String::trim: whitespace stripped from both ends. -/
def rustTrim (l : List Char) : List Char :=
  dropTrailingWs (l.dropWhile rustIsWhitespace)

/- str::rfind(char::is_whitespace): the last whitespace character of the
   string, returned here together with its character index. (Rust returns
   the byte index of that character; only the index of the character and
   the byte width of the character itself matter below.) -/
def rfindWs : List Char → Option (Nat × Char)
  | [] => Option.none
  | c :: cs =>
    match rfindWs cs with
    | some p => some (p.1 + 1, p.2)
    | Option.none => if rustIsWhitespace c then some (0, c) else Option.none

/- src/ui/input.rs, delete_prev_word. Rust truncates the String at byte
   index pos + 1, where pos is the byte index where the found whitespace
   character starts. If that character is a single UTF-8 byte, pos + 1 is the
   boundary right after it and the result keeps the characters up to and
   including it; if the character occupies several bytes, pos + 1 falls
   strictly inside it (the next boundary is pos + utf8Len ≥ pos + 2), and
   String::truncate panics, modelled as none. -/
def deletePrevWord (input : List Char) : Option (List Char) :=
  let trimmed := dropTrailingWs input
  match rfindWs trimmed with
  | some p => if utf8Len p.2 = 1 then some (input.take (p.1 + 1)) else Option.none
  | Option.none => some []

/- src/ui/input.rs, handle_editing_mode_key. The &mut String is threaded
   explicitly; the result is none when delete_prev_word panics. The Rust
   match arms Char('w') if ctrl and Char('u') if ctrl come before the
   unguarded Char(c) arm, which is what the nested ifs reproduce. -/
def handleEditingModeKey (k : KeyEvent) (input : List Char) :
    Option (EditingModeAction × List Char) :=
  let ctrl := k.modifiers.ctrl
  match k.code with
  | .enter => some (.submit, input)
  | .esc => some (.cancel, input)
  | .char c =>
    if c = 'w' && ctrl then (deletePrevWord input).map (fun s => (.edited, s))
    else if c = 'u' && ctrl then some (.edited, [])
    else some (.edited, input ++ [c])
  | .backspace => some (.edited, input.dropLast)
  | _ => some (.none, input)

/- src/ui/issue.rs: the Issue record, restricted to the fields this core
   writes; Issue::new fills id with the empty string and the remaining
   optional fields with None. -/
structure Issue where
  id : List Char
  summary : List Char
  description : List Char
deriving DecidableEq

def Issue.new (summary description : List Char) : Issue :=
  ⟨[], summary, description⟩

/- src/app.rs: the App state. ListState is its selected index (None when
   nothing is selected) plus its scroll offset. -/
structure App where
  issues : List Issue
  selected : Option Nat
  offset : Nat
  inputMode : InputMode
  input : List Char
  cursor : Nat
  sidebarVisible : Bool
deriving DecidableEq

/- App::new. -/
def App.new (issues : List Issue) : App :=
  ⟨issues, if issues.isEmpty then Option.none else some 0, 0,
   .normal, [], 0, false⟩

/- src/app.rs, run_app, InputMode::Insert branch: one Insert-mode key event
   applied to the App. On Submit the issue is appended only when the trimmed
   input is non-empty, and select(Some(issues.len() - 1)) runs after the
   push, so the stored index is the pre-push length. none models a panic
   escaping from handle_editing_mode_key. -/
def insertStep (k : KeyEvent) (a : App) : Option App :=
  (handleEditingModeKey k a.input).map fun r =>
    match r.1 with
    | .submit =>
      if (rustTrim r.2).isEmpty then
        { a with input := r.2, inputMode := .normal, cursor := 0 }
      else
        { a with issues := a.issues ++ [Issue.new (rustTrim r.2) []],
                 selected := some a.issues.length, input := [],
                 inputMode := .normal, cursor := 0 }
    | .cancel => { a with input := r.2, inputMode := .normal, cursor := 0 }
    | .edited => { a with input := r.2, cursor := byteLen r.2 }
    | .none => { a with input := r.2 }

/- Rust's clamp(lo, hi): lo if below, hi if above, the value otherwise. -/
def clampIsize (x lo hi : Int) : Int :=
  if x < lo then lo else if hi < x then hi else x

/- Selection and scroll state of the issue list (the parts of ListState that
   run_app's Normal-mode arms read and write). -/
structure SelState where
  selected : Option Nat
  offset : Nat
deriving DecidableEq

/- src/app.rs, run_app, InputMode::Normal branch, restricted to its effect on
   the selection state. Quit returns from the loop, EnterInput only changes
   the mode, and None does nothing, so those leave the selection state
   unchanged; ToggleSidebar has no arm touching list_state either.
   The Jump arm is (current as isize + offset).clamp(0, len as isize - 1)
   as usize: both usize values go through the usize-to-isize reinterpreting
   cast, the addition and the subtraction by 1 are i64 operations that wrap
   in release builds (wrapIsize; debug builds panic there), and Rust's
   clamp asserts lo <= hi in every profile, so a negative upper bound is a
   panic, modelled as none. The Scroll arm is
   (*offset as isize + scroll).clamp(0, max_offset as isize) as usize with
   max_offset = len.saturating_sub(1) computed in usize (Nat subtraction).
   The final as usize casts act on clamp results lying in [0, hi] with
   hi >= 0, where they are the identity (Int.toNat). -/
def applyNormalAction (len : Nat) (a : NormalModeAction) (s : SelState) :
    Option SelState :=
  match a with
  | .jump d =>
    if len = 0 then some { s with selected := Option.none }
    else if wrapIsize (usizeToIsize len - 1) < 0 then Option.none
    else some { s with selected := some ((clampIsize
        (wrapIsize (usizeToIsize (s.selected.getD 0) + d)) 0
        (wrapIsize (usizeToIsize len - 1))).toNat) }
  | .scroll d =>
    if len = 0 then some s
    else if usizeToIsize (len - 1) < 0 then Option.none
    else some { s with offset := (clampIsize
        (wrapIsize (usizeToIsize s.offset + d)) 0 (usizeToIsize (len - 1))).toNat }
  | .gotoTop => if len = 0 then some s else some { s with selected := some 0 }
  | .gotoBottom => if len = 0 then some s else some { s with selected := some (len - 1) }
  | _ => some s

def applySeq (len : Nat) : List NormalModeAction → SelState → Option SelState
  | [], s => some s
  | a :: as, s => (applyNormalAction len a s).bind (applySeq len as)

/- The selection invariant of section 3 of the spec: a non-empty list always
   has a selected index below the length, an empty list has none. -/
def selInv (len : Nat) (s : SelState) : Prop :=
  if len = 0 then s.selected = Option.none
  else ∃ j, s.selected = some j ∧ j < len

/- src/ui/issue_list.rs: the field catalog of the column layout engine. The
   namespace mirrors the issue_list module and keeps Field apart from
   Mathlib's algebraic Field class. -/

namespace IssueList

inductive Field where
  | id
  | summary
  | status
  | priority
deriving DecidableEq

inductive FieldWidth where
  | flexible (factor min : Nat)
  | fixed (w : Nat)
deriving DecidableEq

/- Field::RENDER_ORDER: order in which fields are rendered in the row. -/
def Field.RENDER_ORDER : List Field := [.id, .priority, .summary, .status]

/- Field::PRIORITY: priority order for hiding fields (first always shown). -/
def Field.PRIORITY : List Field := [.summary, .status, .id, .priority]

/- Field::width. -/
def Field.width : Field → FieldWidth
  | .id => .fixed 8
  | .summary => .flexible 5 20
  | .status => .flexible 1 5
  | .priority => .fixed 1

/- The minimum width the loop in render_issue_list extracts from a policy
   (the fixed width, or the min of the flexible policy). -/
def FieldWidth.minWidth : FieldWidth → Nat
  | .flexible _ m => m
  | .fixed w => w

/- The for-loop of render_issue_list over Field::PRIORITY[1..], carrying
   used_width and shown_fields. All the additions here stay far below 2^16
   for this catalog (used_width never exceeds 40), so no u16 reduction is
   needed on them. -/
def addFieldsLoop (avail : Nat) : List Field → Nat → List Field → Nat × List Field
  | [], used, shown => (used, shown)
  | f :: rest, used, shown =>
    if used + (f.width).minWidth + 2 ≤ avail then
      addFieldsLoop avail rest (used + (f.width).minWidth + 2) (shown ++ [f])
    else
      addFieldsLoop avail rest used shown

/- render_issue_list, selection of shown_fields: the first priority field is
   always shown and its minimum width seeds used_width; the rest are added as
   space allows. -/
def shownFields (avail : Nat) : List Field :=
  (addFieldsLoop avail (Field.PRIORITY.drop 1)
    ((Field.PRIORITY.getD 0 .id).width).minWidth [Field.PRIORITY.getD 0 .id]).2

/- total_flex: sum of flexible factors over the shown fields. -/
def totalFlex (avail : Nat) : Nat :=
  ((shownFields avail).map (fun f =>
    match f.width with
    | .flexible factor _ => factor
    | .fixed _ => 0)).sum

/- fixed_total: sum of the minimum widths of the shown fields plus 2 cells of
   spacing for each column except the last (saturating_sub on the length is
   Nat subtraction). -/
def fixedTotal (avail : Nat) : Nat :=
  ((shownFields avail).map (fun f => (f.width).minWidth)).sum +
    ((shownFields avail).length - 1) * 2

/- remaining_width = available_width.saturating_sub(fixed_total): Nat
   subtraction is exactly saturating u16 subtraction. -/
def remainingWidth (avail : Nat) : Nat := avail - fixedTotal avail

/- The per-field width render_issue_list turns into a layout constraint:
   fixed fields keep their width; flexible fields get
   min + remaining_width * factor / total_flex, computed in u16, where the
   product remaining_width * factor is the one operation that can leave the
   u16 range, hence the reduction mod 2^16. The quotient is at most
   65535 / 5 = 13107 because total_flex is at least 5 here, so the outer
   addition stays in range. -/
def finalWidth (avail : Nat) (f : Field) : Nat :=
  match f.width with
  | .fixed w => w
  | .flexible factor m =>
    if 0 < totalFlex avail then
      m + remainingWidth avail * factor % (2 ^ 16) / totalFlex avail
    else m

/- The emitted layout: shown fields in render order, paired with their final
   widths (the list of column constraints render_issue_list builds). -/
def renderLayout (avail : Nat) : List (Field × Nat) :=
  (Field.RENDER_ORDER.filter (fun f => (shownFields avail).contains f)).map
    (fun f => (f, finalWidth avail f))

def emittedWidths (avail : Nat) : List Nat := (renderLayout avail).map Prod.snd

/- Spec-side comparator for the layout engine, following the words of the
   spec, section 4.4, steps 1 to 7: identical greedy inclusion, but step 6
   computes the flexible width as min + floor(remaining * factor /
   total_flex) in unbounded integers. -/
def specShownFields (avail : Nat) : List Field :=
  (addFieldsLoop avail (Field.PRIORITY.drop 1)
    ((Field.PRIORITY.getD 0 .id).width).minWidth [Field.PRIORITY.getD 0 .id]).2

def specTotalFlex (avail : Nat) : Nat :=
  ((specShownFields avail).map (fun f =>
    match f.width with
    | .flexible factor _ => factor
    | .fixed _ => 0)).sum

def specFixedTotal (avail : Nat) : Nat :=
  ((specShownFields avail).map (fun f => (f.width).minWidth)).sum +
    ((specShownFields avail).length - 1) * 2

def specRemaining (avail : Nat) : Nat := avail - specFixedTotal avail

def specFinalWidth (avail : Nat) (f : Field) : Nat :=
  match f.width with
  | .fixed w => w
  | .flexible factor m =>
    if 0 < specTotalFlex avail then
      m + specRemaining avail * factor / specTotalFlex avail
    else m

def specLayout (avail : Nat) : List (Field × Nat) :=
  (Field.RENDER_ORDER.filter (fun f => (specShownFields avail).contains f)).map
    (fun f => (f, specFinalWidth avail f))

end IssueList

/-! Theorems. -/

/-- C3: delete_prev_word trims trailing whitespace, then truncates to just
    after the last remaining whitespace character, clearing the buffer when
    none remains; the claim's five examples all hold. But the truncation is
    done at a byte index one past the start of the found whitespace
    character, so on an input whose last separating whitespace is a
    multi-byte character (here U+00A0, no-break space) the Rust code panics
    in String::truncate instead of producing the truncated string; the
    panic is the none in the final conjunct. -/
theorem c3_delete_prev_word_eval :
    deletePrevWord ("hello world".toList) = some ("hello ".toList)
  ∧ deletePrevWord ("hello  world".toList) = some ("hello  ".toList)
  ∧ deletePrevWord ("hello ".toList) = some []
  ∧ deletePrevWord ("one two three".toList) = some ("one two ".toList)
  ∧ deletePrevWord ("singleword".toList) = some []
  ∧ deletePrevWord ['a', Char.ofNat 0xA0, 'b'] = Option.none := by
  decide

/-- C4, counterexample: a buffer holding a single space is NOT empty after
    the Insert-mode Enter key event; the Submit arm only clears the buffer
    when the trimmed content is non-empty. -/
theorem c4_counterexample :
    (insertStep ⟨KeyCode.enter, Modifiers.NONE⟩
        ⟨[], Option.none, 0, InputMode.insert, [' '], 1, false⟩).map App.input
      = some [' ']
  ∧ ([' '] : List Char) ≠ [] := by
  decide

/-- C4, amended: after an Insert-mode Enter key event the buffer is empty
    exactly when its trimmed content was non-empty or the buffer was
    already empty; a whitespace-only non-empty buffer is left unchanged. -/
theorem c4_submit_buffer (m : Modifiers) (a : App) :
    (insertStep ⟨KeyCode.enter, m⟩ a).map App.input
      = some (if (rustTrim a.input).isEmpty then a.input else []) := by
  by_cases h : rustTrim a.input = [] <;>
    simp [insertStep, handleEditingModeKey, h, List.isEmpty_iff]

/-- C10: an Insert-mode Enter with non-empty trimmed buffer appends exactly
    one issue whose summary is the trimmed text and whose description is
    empty, selects the new last index (the pre-push length), clears the
    buffer; with whitespace-only or empty buffer the issues and selection
    are untouched; in both cases the mode returns to Normal and the cursor
    resets to 0. -/
theorem c10_submit_step (m : Modifiers) (a : App) :
    insertStep ⟨KeyCode.enter, m⟩ a
      = some (if (rustTrim a.input).isEmpty
          then { a with inputMode := InputMode.normal, cursor := 0 }
          else { a with issues := a.issues ++ [Issue.new (rustTrim a.input) []],
                        selected := some a.issues.length, input := [],
                        inputMode := InputMode.normal, cursor := 0 })
  ∧ (a.issues ++ [Issue.new (rustTrim a.input) []]).length = a.issues.length + 1 := by
  refine ⟨?_, by simp⟩
  by_cases h : rustTrim a.input = [] <;>
    simp [insertStep, handleEditingModeKey, h, List.isEmpty_iff]

/-- C9, counterexample: it is not true that only Control-u or Submit can
    fully clear the buffer: a Backspace on the one-character buffer leaves
    it empty as well. -/
theorem c9_counterexample :
    ¬ (∀ (k : KeyEvent) (a : App),
        (insertStep k a).map App.input = some [] → a.input ≠ [] →
        (k.code = KeyCode.enter ∨ (k.code = KeyCode.char 'u' ∧ k.modifiers.ctrl = true))) := by
  intro h
  have hb := h ⟨KeyCode.backspace, Modifiers.NONE⟩
      ⟨[], Option.none, 0, InputMode.insert, ['a'], 1, false⟩ (by decide) (by decide)
  exact absurd hb (by decide)

/-- C9, amended: for every buffer content the Escape key (Cancel) leaves
    the buffer contents unchanged while returning the mode to Normal and
    resetting the cursor, and Control-u always empties the buffer; but
    Control-w and Backspace may also empty it. -/
theorem c9_cancel_retains (m : Modifiers) (a : App) (sh al : Bool) :
    insertStep ⟨KeyCode.esc, m⟩ a
        = some { a with inputMode := InputMode.normal, cursor := 0 }
  ∧ (insertStep ⟨KeyCode.char 'u', ⟨true, sh, al⟩⟩ a).map App.input = some [] := by
  constructor <;> simp [insertStep, handleEditingModeKey]

/-- C7: any Normal-mode key that is not swallowed as a digit leaves the
    pending-count cell empty after the call, and the resolved action is
    computed from the count read once from the cell, defaulted to 1 when
    absent. -/
theorem c7_pending_cleared (k : KeyEvent) (p : Option Nat)
    (h : swallowsDigit k p = false) :
    (handleNormalModeKey k p).2 = Option.none
  ∧ (handleNormalModeKey k p).1 = resolveNormal (p.getD 1) k := by
  obtain ⟨code, m⟩ := k
  cases code with
  | char c =>
    have hb : (c.isDigit && !(c = '0' && p.isNone)) = false := by
      simpa only [swallowsDigit] using h
    simp only [handleNormalModeKey]
    split
    · rename_i hcond
      rw [hb] at hcond
      simp at hcond
    · exact ⟨rfl, rfl⟩
  | enter => simp [handleNormalModeKey]
  | esc => simp [handleNormalModeKey]
  | backspace => simp [handleNormalModeKey]
  | up => simp [handleNormalModeKey]
  | down => simp [handleNormalModeKey]
  | otherKey => simp [handleNormalModeKey]

/-- C7, witness: the x key with a pending count of 5 resolves (to None) and
    empties the pending cell. -/
theorem c7_pending_cleared_witness :
    (handleNormalModeKey ⟨KeyCode.char 'x', Modifiers.NONE⟩ (some 5)).2 = Option.none
  ∧ (handleNormalModeKey ⟨KeyCode.char 'x', Modifiers.NONE⟩ (some 5)).1
      = resolveNormal ((some 5).getD 1) ⟨KeyCode.char 'x', Modifiers.NONE⟩ :=
  c7_pending_cleared ⟨KeyCode.char 'x', Modifiers.NONE⟩ (some 5) (by decide)

/-- C5: at available_width = 65535 the flexible-width computation of the
    layout engine overflows u16: remaining * factor = 65495 * 5 = 327475
    wraps mod 2^16 before the division, so the Summary column gets width
    10908 where the spec's unbounded formula gives 54599 (debug builds
    panic at the multiplication instead). Together with the delete_prev_word
    panic of C3 this refutes the no-overflow / no-panic claim. -/
theorem c5_layout_overflow_eval :
    (IssueList.renderLayout 65535).map Prod.snd = [8, 1, 10908, 10920]
  ∧ (IssueList.specLayout 65535).map Prod.snd = [8, 1, 54599, 10920] := by
  decide

/-- C1, counterexample: twenty 9 keys followed by j produce a Jump whose
    magnitude is the accumulated usize value 99999999999999999999 mod 2^64
    = 7766279631452241919, not the decimal value of the digit sequence. -/
theorem c1_counterexample :
    runKeys (List.replicate 20 (digitKey '9') ++ [jKey]) Option.none
      = (List.replicate 20 NormalModeAction.none
          ++ [NormalModeAction.jump 7766279631452241919], Option.none)
  ∧ decDigits (List.replicate 20 '9') = 99999999999999999999
  ∧ (7766279631452241919 : Int) ≠ 99999999999999999999 := by
  decide

/-- C8, counterexample: at available_width = 65535 the emitted layout
    differs from the spec's step-6 formula because the u16 product
    remaining * factor wraps mod 2^16. -/
theorem c8_counterexample :
    IssueList.renderLayout 65535 ≠ IssueList.specLayout 65535 := by
  decide

/- Splitting a key run at an append. -/
theorem runKeys_append (ks1 ks2 : List KeyEvent) (p : Option Nat) :
    runKeys (ks1 ++ ks2) p
      = ((runKeys ks1 p).1 ++ (runKeys ks2 (runKeys ks1 p).2).1,
         (runKeys ks2 (runKeys ks1 p).2).2) := by
  induction ks1 generalizing p with
  | nil => simp [runKeys]
  | cons k ks ih => simp [runKeys, ih]

/- A run of digit keys with a pending count already present: every key is
   swallowed (emitting None) and the count accumulates with usize
   wrapping. -/
theorem runKeys_digits (ds : List Char) (v : Nat)
    (hd : ∀ c ∈ ds, c.isDigit = true) :
    runKeys (ds.map digitKey) (some v)
      = (List.replicate ds.length NormalModeAction.none,
         some (ds.foldl (fun a c => wrapUsize (a * 10 + digitToNat c)) v)) := by
  induction ds generalizing v with
  | nil => simp [runKeys]
  | cons c cs ih =>
    have hc : c.isDigit = true := hd c (by simp)
    have hstep : handleNormalModeKey (digitKey c) (some v)
        = (NormalModeAction.none, some (wrapUsize (v * 10 + digitToNat c))) := by
      simp [handleNormalModeKey, digitKey, hc]
    simp [runKeys, hstep,
      ih (wrapUsize (v * 10 + digitToNat c)) (fun x hx => hd x (by simp [hx])),
      List.replicate_succ]

/- The unbounded decimal accumulator only grows. -/
theorem decFold_ge (ds : List Char) (v : Nat) :
    v ≤ ds.foldl (fun a c => a * 10 + digitToNat c) v := by
  induction ds generalizing v with
  | nil => simp
  | cons c cs ih => exact le_trans (by omega) (ih (v * 10 + digitToNat c))

/- Below 2^64 the wrapping accumulator and the unbounded one agree. -/
theorem wrapFold_eq_decFold (ds : List Char) (v : Nat)
    (h : ds.foldl (fun a c => a * 10 + digitToNat c) v < 2 ^ 64) :
    ds.foldl (fun a c => wrapUsize (a * 10 + digitToNat c)) v
      = ds.foldl (fun a c => a * 10 + digitToNat c) v := by
  induction ds generalizing v with
  | nil => simp
  | cons c cs ih =>
    have hv : v * 10 + digitToNat c < 2 ^ 64 :=
      lt_of_le_of_lt (decFold_ge cs (v * 10 + digitToNat c)) (by simpa using h)
    simp only [List.foldl_cons]
    rw [show wrapUsize (v * 10 + digitToNat c) = v * 10 + digitToNat c from
      Nat.mod_eq_of_lt hv]
    exact ih (v * 10 + digitToNat c) (by simpa using h)

/-- C1, amended: for every non-empty digit-key sequence with a non-zero
    leading digit followed by j (no modifiers), every digit key emits None
    and is swallowed into the count, and j emits Jump(m) with m the decimal
    value of the digits accumulated in usize arithmetic (mod 2^64) and cast
    to isize; m equals the plain decimal value whenever that value is below
    2^63. A 0 typed with no pending count is not accumulated and falls
    through to resolution, which leaves the pending cell empty and yields
    None. -/
theorem c1_count_prefix (ds : List Char) (hne : ds ≠ [])
    (hd : ∀ c ∈ ds, c.isDigit = true) (h0 : ds.head? ≠ some '0') :
    runKeys (ds.map digitKey ++ [jKey]) Option.none
      = (List.replicate ds.length NormalModeAction.none
          ++ [NormalModeAction.jump (usizeToIsize (wrapDigits ds))], Option.none)
  ∧ (decDigits ds < 2 ^ 63 → usizeToIsize (wrapDigits ds) = (decDigits ds : Int))
  ∧ handleNormalModeKey (digitKey '0') Option.none
      = (NormalModeAction.none, Option.none) := by
  refine ⟨?_, ?_, by decide⟩
  · obtain ⟨d, rest, rfl⟩ : ∃ d rest, ds = d :: rest := by
      cases ds with
      | nil => exact absurd rfl hne
      | cons d rest => exact ⟨d, rest, rfl⟩
    have hdd : d.isDigit = true := hd d (by simp)
    have hd0 : ¬(d = '0') := by
      intro hh
      exact h0 (by simp [hh])
    have hstep1 : handleNormalModeKey (digitKey d) Option.none
        = (NormalModeAction.none, some (wrapUsize (0 * 10 + digitToNat d))) := by
      simp [handleNormalModeKey, digitKey, hdd, hd0]
    have hrest := runKeys_digits rest (wrapUsize (0 * 10 + digitToNat d))
      (fun x hx => hd x (by simp [hx]))
    have hjump : ∀ n : Nat, handleNormalModeKey jKey (some n)
        = (NormalModeAction.jump (usizeToIsize n), Option.none) := fun n => rfl
    have h1 : runKeys ((d :: rest).map digitKey) Option.none
        = (List.replicate (d :: rest).length NormalModeAction.none,
           some (wrapDigits (d :: rest))) := by
      simp only [List.map_cons, runKeys, hstep1, hrest]
      simp [wrapDigits, List.replicate_succ]
    have h2 : runKeys [jKey] (some (wrapDigits (d :: rest)))
        = ([NormalModeAction.jump (usizeToIsize (wrapDigits (d :: rest)))],
           Option.none) := by
      simp [runKeys, hjump]
    rw [runKeys_append, h1, h2]
  · intro hlt
    have hw : wrapDigits ds = decDigits ds := by
      have := wrapFold_eq_decFold ds 0 (lt_trans hlt (by norm_num))
      simpa [wrapDigits, decDigits] using this
    rw [hw, usizeToIsize, if_pos hlt]

/-- C1, witness: the key sequence 4 2 j yields None, None, Jump(42) and an
    empty pending cell. -/
theorem c1_count_prefix_witness :
    runKeys (['4', '2'].map digitKey ++ [jKey]) Option.none
      = (List.replicate (['4', '2'].length) NormalModeAction.none
          ++ [NormalModeAction.jump (usizeToIsize (wrapDigits ['4', '2']))], Option.none)
  ∧ (decDigits ['4', '2'] < 2 ^ 63 →
      usizeToIsize (wrapDigits ['4', '2']) = (decDigits ['4', '2'] : Int))
  ∧ handleNormalModeKey (digitKey '0') Option.none
      = (NormalModeAction.none, Option.none) :=
  c1_count_prefix ['4', '2'] (by decide) (by decide) (by decide)

/- wrapIsize is the identity on values already inside the i64 range. -/
theorem wrapIsize_eq_self (x : Int) (h1 : -(2 ^ 63) ≤ x) (h2 : x < 2 ^ 63) :
    wrapIsize x = x := by
  simp only [wrapIsize]
  omega

/- The Jump clamp upper bound, len as isize - 1: whenever it is
   non-negative (otherwise clamp panics), it is at most len - 1. -/
theorem jumpHi_bound (len : Nat) (hlen : len < 2 ^ 64)
    (h : ¬ wrapIsize (usizeToIsize len - 1) < 0) :
    wrapIsize (usizeToIsize len - 1) ≤ (len : Int) - 1 := by
  simp only [wrapIsize, usizeToIsize] at h ⊢
  by_cases hc : len < 2 ^ 63
  · rw [if_pos hc] at h ⊢
    omega
  · rw [if_neg hc] at h ⊢
    omega

/- For lengths below 2^63 the Jump clamp upper bound is exactly len - 1. -/
theorem jumpHi_eq (len : Nat) (h1 : 1 ≤ len) (h2 : len < 2 ^ 63) :
    wrapIsize (usizeToIsize len - 1) = (len : Int) - 1 := by
  simp only [usizeToIsize, if_pos h2, wrapIsize]
  omega

/- For lengths below 2^63 the Scroll clamp upper bound is exactly
   len.saturating_sub(1). -/
theorem scrollHi_eq (len : Nat) (h2 : len < 2 ^ 63) :
    usizeToIsize (len - 1) = ((len - 1 : Nat) : Int) := by
  simp only [usizeToIsize]
  rw [if_pos (by omega : len - 1 < 2 ^ 63)]

/- One Normal-mode action preserves the selection invariant (when it does
   not panic). -/
theorem applyNormalAction_inv (len : Nat) (a : NormalModeAction) (s t : SelState)
    (hlen : len < 2 ^ 64) (h : selInv len s)
    (ht : applyNormalAction len a s = some t) : selInv len t := by
  cases a with
  | jump d =>
    simp only [applyNormalAction] at ht
    by_cases h0 : len = 0
    · rw [if_pos h0] at ht
      obtain rfl := Option.some.inj ht
      simp [selInv, h0]
    · rw [if_neg h0] at ht
      by_cases hhi : wrapIsize (usizeToIsize len - 1) < 0
      · rw [if_pos hhi] at ht
        exact absurd ht (by simp)
      · rw [if_neg hhi] at ht
        obtain rfl := Option.some.inj ht
        have hb := jumpHi_bound len hlen hhi
        have h1 : 1 ≤ len := Nat.pos_of_ne_zero h0
        simp only [selInv, if_neg h0]
        refine ⟨_, rfl, ?_⟩
        unfold clampIsize
        split_ifs <;> omega
  | scroll d =>
    simp only [applyNormalAction] at ht
    by_cases h0 : len = 0
    · rw [if_pos h0] at ht
      obtain rfl := Option.some.inj ht
      exact h
    · rw [if_neg h0] at ht
      by_cases hhi : usizeToIsize (len - 1) < 0
      · rw [if_pos hhi] at ht
        exact absurd ht (by simp)
      · rw [if_neg hhi] at ht
        obtain rfl := Option.some.inj ht
        simpa [selInv] using h
  | gotoTop =>
    simp only [applyNormalAction] at ht
    by_cases h0 : len = 0
    · rw [if_pos h0] at ht
      obtain rfl := Option.some.inj ht
      exact h
    · rw [if_neg h0] at ht
      obtain rfl := Option.some.inj ht
      simp only [selInv, if_neg h0]
      exact ⟨0, rfl, Nat.pos_of_ne_zero h0⟩
  | gotoBottom =>
    simp only [applyNormalAction] at ht
    by_cases h0 : len = 0
    · rw [if_pos h0] at ht
      obtain rfl := Option.some.inj ht
      exact h
    · rw [if_neg h0] at ht
      obtain rfl := Option.some.inj ht
      have h1 : 1 ≤ len := Nat.pos_of_ne_zero h0
      simp only [selInv, if_neg h0]
      exact ⟨len - 1, rfl, by omega⟩
  | quit =>
    simp only [applyNormalAction] at ht
    obtain rfl := Option.some.inj ht
    exact h
  | enterInput =>
    simp only [applyNormalAction] at ht
    obtain rfl := Option.some.inj ht
    exact h
  | toggleSidebar =>
    simp only [applyNormalAction] at ht
    obtain rfl := Option.some.inj ht
    exact h
  | none =>
    simp only [applyNormalAction] at ht
    obtain rfl := Option.some.inj ht
    exact h

/- Any sequence of Normal-mode actions that completes without a panic
   preserves the selection invariant. -/
theorem applySeq_inv (len : Nat) (acts : List NormalModeAction) (s t : SelState)
    (hlen : len < 2 ^ 64) (h : selInv len s)
    (ht : applySeq len acts s = some t) : selInv len t := by
  induction acts generalizing s with
  | nil =>
    simp only [applySeq] at ht
    obtain rfl := Option.some.inj ht
    exact h
  | cons a as ih =>
    simp only [applySeq] at ht
    cases hstep : applyNormalAction len a s with
    | none =>
      rw [hstep] at ht
      simp at ht
    | some u =>
      rw [hstep] at ht
      simp only [Option.some_bind] at ht
      exact ih u (applyNormalAction_inv len a s u hlen h hstep) ht

/-- C6, amended: on an empty list a Jump makes the selection none and every
    action keeps a none selection none; on a non-empty list of usize length
    below 2^63, a Jump from index i selects
    clamp(wrap_i64(i + delta), 0, len - 1) — the i64 addition current as
    isize + delta wraps in release builds (panics in debug) — which is in
    range, and equals the claimed clamp(i + delta, 0, len - 1) exactly when
    i + delta fits in the signed 64-bit range; GotoTop selects 0, GotoBottom
    selects len - 1; Scroll leaves the selection alone and sets only the
    offset to the analogous wrapped clamp, kept in range; and any sequence
    of actions that completes preserves the invariant that a non-empty list
    has a selected index below its length while an empty list has none. -/
theorem c6_selection (len : Nat) (s : SelState) (a : NormalModeAction)
    (d : Int) (i : Nat) (acts : List NormalModeAction) :
    (applyNormalAction 0 (NormalModeAction.jump d) s).map SelState.selected
      = some Option.none
  ∧ (s.selected = Option.none →
      (applyNormalAction 0 a s).map SelState.selected = some Option.none)
  ∧ (0 < len → len < 2 ^ 63 → s.selected = some i → i < len →
      (applyNormalAction len (NormalModeAction.jump d) s).map SelState.selected
        = some (some ((clampIsize (wrapIsize ((i : Int) + d)) 0
            ((len : Int) - 1)).toNat))
      ∧ (clampIsize (wrapIsize ((i : Int) + d)) 0 ((len : Int) - 1)).toNat < len
      ∧ (-(2 ^ 63) ≤ (i : Int) + d → (i : Int) + d < 2 ^ 63 →
          (applyNormalAction len (NormalModeAction.jump d) s).map SelState.selected
            = some (some ((clampIsize ((i : Int) + d) 0 ((len : Int) - 1)).toNat))))
  ∧ (0 < len →
      (applyNormalAction len NormalModeAction.gotoTop s).map SelState.selected
        = some (some 0))
  ∧ (0 < len →
      (applyNormalAction len NormalModeAction.gotoBottom s).map SelState.selected
        = some (some (len - 1)))
  ∧ (0 < len → len < 2 ^ 63 →
      (applyNormalAction len (NormalModeAction.scroll d) s).map SelState.selected
        = some s.selected
      ∧ (applyNormalAction len (NormalModeAction.scroll d) s).map SelState.offset
          = some ((clampIsize (wrapIsize (usizeToIsize s.offset + d)) 0
              (((len - 1 : Nat) : Int))).toNat)
      ∧ (clampIsize (wrapIsize (usizeToIsize s.offset + d)) 0
            (((len - 1 : Nat) : Int))).toNat < len)
  ∧ (selInv len s → len < 2 ^ 64 →
      ∀ t, applySeq len acts s = some t → selInv len t) := by
  refine ⟨?_, ?_, ?_, ?_, ?_, ?_,
    fun h hlen t ht => applySeq_inv len acts s t hlen h ht⟩
  · simp [applyNormalAction]
  · intro hsel
    cases a <;> simp [applyNormalAction, hsel]
  · intro hpos hlt hsel hil
    have h0 : ¬(len = 0) := by omega
    have hhi : wrapIsize (usizeToIsize len - 1) = (len : Int) - 1 :=
      jumpHi_eq len (by omega) hlt
    have hnn : ¬ wrapIsize (usizeToIsize len - 1) < 0 := by
      rw [hhi]
      omega
    have hcur : usizeToIsize i = (i : Int) := by
      simp only [usizeToIsize]
      rw [if_pos (lt_trans hil hlt)]
    refine ⟨?_, ?_, ?_⟩
    · simp [applyNormalAction, h0, hnn, hsel, hcur, hhi]
    · have h1 : 1 ≤ len := by omega
      unfold clampIsize
      split_ifs <;> omega
    · intro hf1 hf2
      have hw : wrapIsize ((i : Int) + d) = (i : Int) + d :=
        wrapIsize_eq_self _ hf1 hf2
      simp [applyNormalAction, h0, hnn, hsel, hcur, hhi, hw]
  · intro hpos
    simp [applyNormalAction, Nat.pos_iff_ne_zero.mp hpos]
  · intro hpos
    simp [applyNormalAction, Nat.pos_iff_ne_zero.mp hpos]
  · intro hpos hlt
    have h0 : ¬(len = 0) := by omega
    have hhi : usizeToIsize (len - 1) = ((len - 1 : Nat) : Int) :=
      scrollHi_eq len hlt
    have hnn : ¬ usizeToIsize (len - 1) < 0 := by
      rw [hhi]
      omega
    refine ⟨?_, ?_, ?_⟩
    · simp [applyNormalAction, h0, hnn]
    · simp [applyNormalAction, h0, hnn, hhi]
    · have h1 : 1 ≤ len := by omega
      unfold clampIsize
      split_ifs <;> omega

/-- C6, counterexample: with 2 issues and index 1 selected, Jump by
    2^63 - 1 — a delta reachable by typing the 19 digits of
    9223372036854775807 and then j, as the last conjunct shows — makes the
    i64 addition 1 + (2^63 - 1) wrap to -2^63 in release builds, so the
    code selects index 0, while the claimed clamp(previous + delta, 0,
    len - 1) equals 1; debug builds panic at that addition. -/
theorem c6_counterexample :
    applyNormalAction 2 (NormalModeAction.jump (2 ^ 63 - 1)) ⟨some 1, 0⟩
      = some ⟨some 0, 0⟩
  ∧ (clampIsize ((1 : Int) + (2 ^ 63 - 1)) 0 ((2 : Int) - 1)).toNat = 1
  ∧ (runKeys ((("9223372036854775807".toList).map digitKey) ++ [jKey])
        Option.none).1.getLast?
      = some (NormalModeAction.jump (2 ^ 63 - 1)) := by
  decide

/-- C6, witness: on a list of length 3 with index 1 selected, Jump(2)
    clamps to index 2 without wrapping, and GotoBottom preserves the
    invariant. -/
theorem c6_selection_witness :
    ((applyNormalAction 3 (NormalModeAction.jump 2) ⟨some 1, 0⟩).map SelState.selected
        = some (some ((clampIsize (wrapIsize (((1 : Nat) : Int) + 2)) 0
            (((3 : Nat) : Int) - 1)).toNat))
      ∧ (clampIsize (wrapIsize (((1 : Nat) : Int) + 2)) 0
          (((3 : Nat) : Int) - 1)).toNat < 3)
  ∧ selInv 3 ⟨some 2, 0⟩ :=
  ⟨⟨((c6_selection 3 ⟨some 1, 0⟩ NormalModeAction.quit 2 1
        [NormalModeAction.gotoBottom]).2.2.1 (by norm_num) (by norm_num) rfl
        (by norm_num)).1,
    ((c6_selection 3 ⟨some 1, 0⟩ NormalModeAction.quit 2 1
        [NormalModeAction.gotoBottom]).2.2.1 (by norm_num) (by norm_num) rfl
        (by norm_num)).2.1⟩,
   (c6_selection 3 ⟨some 1, 0⟩ NormalModeAction.quit 2 1
        [NormalModeAction.gotoBottom]).2.2.2.2.2.2
      (by simp [selInv]) (by norm_num) ⟨some 2, 0⟩ (by decide)⟩

namespace IssueList

/- Evaluation of the greedy field selection on each interval of
   available_width. Status fits from 27 on, Id from 37 on (given Status),
   Priority fills leftover slots: below 23 only Summary fits. -/
theorem shownFields_b1 (W : Nat) (h : W < 23) :
    shownFields W = [Field.summary] := by
  simp only [shownFields, Field.PRIORITY, List.drop_succ_cons, List.drop_zero,
    List.getD_cons_zero, Field.width, FieldWidth.minWidth, addFieldsLoop]
  split_ifs <;> first | rfl | omega

theorem shownFields_b2 (W : Nat) (h1 : 23 ≤ W) (h2 : W < 27) :
    shownFields W = [Field.summary, Field.priority] := by
  simp only [shownFields, Field.PRIORITY, List.drop_succ_cons, List.drop_zero,
    List.getD_cons_zero, Field.width, FieldWidth.minWidth, addFieldsLoop]
  split_ifs <;> first | rfl | omega

theorem shownFields_b3 (W : Nat) (h1 : 27 ≤ W) (h2 : W < 30) :
    shownFields W = [Field.summary, Field.status] := by
  simp only [shownFields, Field.PRIORITY, List.drop_succ_cons, List.drop_zero,
    List.getD_cons_zero, Field.width, FieldWidth.minWidth, addFieldsLoop]
  split_ifs <;> first | rfl | omega

theorem shownFields_b4 (W : Nat) (h1 : 30 ≤ W) (h2 : W < 37) :
    shownFields W = [Field.summary, Field.status, Field.priority] := by
  simp only [shownFields, Field.PRIORITY, List.drop_succ_cons, List.drop_zero,
    List.getD_cons_zero, Field.width, FieldWidth.minWidth, addFieldsLoop]
  split_ifs <;> first | rfl | omega

theorem shownFields_b5 (W : Nat) (h1 : 37 ≤ W) (h2 : W < 40) :
    shownFields W = [Field.summary, Field.status, Field.id] := by
  simp only [shownFields, Field.PRIORITY, List.drop_succ_cons, List.drop_zero,
    List.getD_cons_zero, Field.width, FieldWidth.minWidth, addFieldsLoop]
  split_ifs <;> first | rfl | omega

theorem shownFields_b6 (W : Nat) (h : 40 ≤ W) :
    shownFields W = [Field.summary, Field.status, Field.id, Field.priority] := by
  simp only [shownFields, Field.PRIORITY, List.drop_succ_cons, List.drop_zero,
    List.getD_cons_zero, Field.width, FieldWidth.minWidth, addFieldsLoop]
  split_ifs <;> first | rfl | omega

/- Evaluation of the emitted layout on each of the six intervals. -/
theorem renderLayout_b6 (W : Nat) (h : 40 ≤ W) :
    renderLayout W
      = [(Field.id, (8 : Nat)), (Field.priority, 1),
         (Field.summary, 20 + (W - 40) * 5 % 65536 / 6),
         (Field.status, 5 + (W - 40) * 1 % 65536 / 6)] := by
  simp +decide [renderLayout, shownFields_b6 W h, Field.RENDER_ORDER, finalWidth,
    totalFlex, fixedTotal, remainingWidth, Field.width, FieldWidth.minWidth,
    (show (2 : Nat) ^ 16 = 65536 by norm_num)]

theorem renderLayout_b1 (W : Nat) (h : W < 23) :
    renderLayout W = [(Field.summary, 20 + (W - 20) * 5 % 65536 / 5)] := by
  simp +decide [renderLayout, shownFields_b1 W h, Field.RENDER_ORDER, finalWidth,
    totalFlex, fixedTotal, remainingWidth, Field.width, FieldWidth.minWidth,
    (show (2 : Nat) ^ 16 = 65536 by norm_num)]

theorem renderLayout_b2 (W : Nat) (h1 : 23 ≤ W) (h2 : W < 27) :
    renderLayout W
      = [(Field.priority, (1 : Nat)),
         (Field.summary, 20 + (W - 23) * 5 % 65536 / 5)] := by
  simp +decide [renderLayout, shownFields_b2 W h1 h2, Field.RENDER_ORDER, finalWidth,
    totalFlex, fixedTotal, remainingWidth, Field.width, FieldWidth.minWidth,
    (show (2 : Nat) ^ 16 = 65536 by norm_num)]

theorem renderLayout_b3 (W : Nat) (h1 : 27 ≤ W) (h2 : W < 30) :
    renderLayout W
      = [(Field.summary, 20 + (W - 27) * 5 % 65536 / 6),
         (Field.status, 5 + (W - 27) * 1 % 65536 / 6)] := by
  simp +decide [renderLayout, shownFields_b3 W h1 h2, Field.RENDER_ORDER, finalWidth,
    totalFlex, fixedTotal, remainingWidth, Field.width, FieldWidth.minWidth,
    (show (2 : Nat) ^ 16 = 65536 by norm_num)]

theorem renderLayout_b4 (W : Nat) (h1 : 30 ≤ W) (h2 : W < 37) :
    renderLayout W
      = [(Field.priority, (1 : Nat)),
         (Field.summary, 20 + (W - 30) * 5 % 65536 / 6),
         (Field.status, 5 + (W - 30) * 1 % 65536 / 6)] := by
  simp +decide [renderLayout, shownFields_b4 W h1 h2, Field.RENDER_ORDER, finalWidth,
    totalFlex, fixedTotal, remainingWidth, Field.width, FieldWidth.minWidth,
    (show (2 : Nat) ^ 16 = 65536 by norm_num)]

theorem renderLayout_b5 (W : Nat) (h1 : 37 ≤ W) (h2 : W < 40) :
    renderLayout W
      = [(Field.id, (8 : Nat)),
         (Field.summary, 20 + (W - 37) * 5 % 65536 / 6),
         (Field.status, 5 + (W - 37) * 1 % 65536 / 6)] := by
  simp +decide [renderLayout, shownFields_b5 W h1 h2, Field.RENDER_ORDER, finalWidth,
    totalFlex, fixedTotal, remainingWidth, Field.width, FieldWidth.minWidth,
    (show (2 : Nat) ^ 16 = 65536 by norm_num)]

/-- C2: for every available width, the sum of the emitted column widths plus
    2 cells of spacing between each adjacent pair of emitted columns never
    exceeds the available width, except in the degenerate case where only
    the first-priority field (Summary) is included and its minimum width 20
    alone exceeds the available width. -/
theorem c2_width_invariant (W : Nat) :
    (emittedWidths W).sum + 2 * ((renderLayout W).length - 1) ≤ W
  ∨ (shownFields W = [Field.summary] ∧ W < 20) := by
  by_cases hb1 : W < 23
  · by_cases h0 : W < 20
    · exact Or.inr ⟨shownFields_b1 W hb1, h0⟩
    · left
      simp only [emittedWidths, renderLayout_b1 W hb1, List.map_cons, List.map_nil,
        List.sum_cons, List.sum_nil, List.length_cons, List.length_nil]
      omega
  · left
    by_cases hb2 : W < 27
    · simp only [emittedWidths, renderLayout_b2 W (by omega) hb2, List.map_cons,
        List.map_nil, List.sum_cons, List.sum_nil, List.length_cons, List.length_nil]
      omega
    · by_cases hb3 : W < 30
      · simp only [emittedWidths, renderLayout_b3 W (by omega) hb3, List.map_cons,
          List.map_nil, List.sum_cons, List.sum_nil, List.length_cons, List.length_nil]
        have ha : (W - 27) * 5 % 65536 ≤ (W - 27) * 5 := Nat.mod_le _ _
        have hb : (W - 27) * 1 % 65536 ≤ (W - 27) * 1 := Nat.mod_le _ _
        omega
      · by_cases hb4 : W < 37
        · simp only [emittedWidths, renderLayout_b4 W (by omega) hb4, List.map_cons,
            List.map_nil, List.sum_cons, List.sum_nil, List.length_cons,
            List.length_nil]
          have ha : (W - 30) * 5 % 65536 ≤ (W - 30) * 5 := Nat.mod_le _ _
          have hb : (W - 30) * 1 % 65536 ≤ (W - 30) * 1 := Nat.mod_le _ _
          omega
        · by_cases hb5 : W < 40
          · simp only [emittedWidths, renderLayout_b5 W (by omega) hb5, List.map_cons,
              List.map_nil, List.sum_cons, List.sum_nil, List.length_cons,
              List.length_nil]
            have ha : (W - 37) * 5 % 65536 ≤ (W - 37) * 5 := Nat.mod_le _ _
            have hb : (W - 37) * 1 % 65536 ≤ (W - 37) * 1 := Nat.mod_le _ _
            omega
          · simp only [emittedWidths, renderLayout_b6 W (by omega), List.map_cons,
              List.map_nil, List.sum_cons, List.sum_nil, List.length_cons,
              List.length_nil]
            have ha : (W - 40) * 5 % 65536 ≤ (W - 40) * 5 := Nat.mod_le _ _
            have hb : (W - 40) * 1 % 65536 ≤ (W - 40) * 1 := Nat.mod_le _ _
            omega

/-- C8, amended: the engine includes the first priority field
    unconditionally, greedily adds each remaining field in priority order
    exactly when used + min + 2 fits, gives fixed fields their fixed width
    and flexible fields min + floor((remaining * factor mod 2^16) /
    total_flex) with remaining = max(available - fixed_total, 0), emitting
    in render order: identical to the spec's algorithm except that the
    product remaining * factor is computed in u16, so the two agree exactly
    whenever the product cannot wrap; with this catalog that covers every
    available_width up to 13147. -/
theorem c8_layout_greedy (W : Nat) (h : W ≤ 13147) :
    renderLayout W = specLayout W := by
  have htf : specTotalFlex W = totalFlex W := rfl
  have hrm : specRemaining W = remainingWidth W := rfl
  have hshown : specShownFields W = shownFields W := rfl
  have hrem5 : remainingWidth W * 5 < 65536 := by
    by_cases h40 : 40 ≤ W
    · have hft : fixedTotal W = 40 := by
        simp [fixedTotal, shownFields_b6 W h40, Field.width, FieldWidth.minWidth]
      simp only [remainingWidth, hft]
      omega
    · have hW : remainingWidth W ≤ W := Nat.sub_le _ _
      omega
  have hrem1 : remainingWidth W * 1 < 65536 := by omega
  have hmod : ∀ factor : Nat, remainingWidth W * factor < 65536 →
      remainingWidth W * factor % (2 ^ 16) = remainingWidth W * factor := by
    intro factor hf
    exact Nat.mod_eq_of_lt (by norm_num; omega)
  simp only [renderLayout, specLayout, hshown]
  apply List.map_congr_left
  intro f hf
  have hw : finalWidth W f = specFinalWidth W f := by
    cases f with
    | id => rfl
    | priority => rfl
    | summary =>
      simp only [finalWidth, specFinalWidth, Field.width, htf, hrm,
        hmod 5 hrem5]
    | status =>
      simp only [finalWidth, specFinalWidth, Field.width, htf, hrm,
        hmod 1 hrem1]
  rw [hw]

/-- C8, witness: at available width 40 all four columns fit and the engine
    agrees with the spec algorithm. -/
theorem c8_layout_greedy_witness :
    renderLayout 40 = specLayout 40 :=
  c8_layout_greedy 40 (by norm_num)

end IssueList
